import Mathlib

/-!
Shallow embedding of `tools/mrbc/mrbc.c` (the mrbc command-line compiler
front end): the argument-resolution pass `parse_args`, the output-filename
derivation `get_outfilename`, and the orchestration in `main`.

External collaborators (the compiler `mrb_load_file_cxt`, the two
serializers `mrb_dump_irep_cfunc` / `mrb_dump_irep_binary`, and the file
system `fopen`) are modelled as oracle parameters.  Observable side effects
(printed messages, version banners, fopen attempts) are recorded as an
ordered event list, and the open/closed status of the input stream, output
stream and the `mrb_state` engine context is tracked explicitly in the final
result so that resource-release behaviour on every exit path is visible.

Argv tokens are character lists (C strings without the terminating NUL).
-/

namespace Mrbc

/-- An argv token / C string, as a list of characters. -/
abbrev Tok := List Char

/-- RITEBIN_EXT, the default extension of the binary output format. -/
def riteBinExt : Tok := ".mrb".toList

/-- C_EXT, the extension used for the C-source output format. -/
def cExt : Tok := ".c".toList

/-- A stdio stream as held in `struct _args`: stdin, stdout, or a file
opened for reading / binary writing at a given path. -/
inductive Stream where
  | stdinS : Stream
  | stdoutS : Stream
  | fileR : Tok → Stream
  | fileW : Tok → Stream
deriving DecidableEq, Repr

/-- Observable side effects of a run, in program order. -/
inductive Event where
  | showVersion : Event
  | showCopyright : Event
  | msgOutputAlready : Tok → Event
  | msgFuncNameMissing : Event
  | msgCannotOpenInput : Tok → Event
  | msgCannotOpenOutput : Tok → Event
  | openInput : Tok → Event
  | openOutput : Tok → Event
  | usage : Event
  | syntaxOK : Event
  | msgInvalidSymbol : Tok → Event
deriving DecidableEq, Repr

/-- The `struct _args` record of mrbc.c. -/
structure Args where
  rfp : Option Stream
  wfp : Option Stream
  filename : Option Tok
  initname : Option Tok
  ext : Tok
  checkSyntaxOnly : Bool
  verbose : Bool
  debugInfo : Bool
deriving DecidableEq, Repr

/-- The `args_zero` all-zero initializer of mrbc.c. -/
def args_zero : Args := ⟨none, none, none, none, [], false, false, false⟩

/-- Index of the last occurrence of a character in a token
(the `strrchr` position), or `none`. -/
def lastIdxOf (a : Char) : Tok → Option Nat
  | [] => none
  | c :: rest =>
    match lastIdxOf a rest with
    | some i => some (i + 1)
    | none => if c = a then some 0 else none

/-- The `get_outfilename` function of mrbc.c: copy `infile`; when `ext` is non-empty,
overwrite from the position of the last dot (`strrchr(outfile, '.')`) with
`ext`, or append `ext` when there is no dot anywhere in the copied path. -/
def get_outfilename (infile ext : Tok) : Tok :=
  if ext = [] then infile
  else
    match lastIdxOf '.' infile with
    | none => infile ++ ext
    | some i => infile.take i ++ ext

/-- Mutable scanning state of the `parse_args` loop: the `infile` and
`outfile` locals, the partially-filled `struct _args`, and the events
emitted so far. -/
structure ScanState where
  infile : Option Tok
  outfile : Option Tok
  args : Args
  evs : List Event
deriving DecidableEq, Repr

/-- Scan state at entry of the loop in `parse_args`:
`*args = args_zero; args->ext = RITEBIN_EXT;`. -/
def initState : ScanState :=
  ⟨none, none, { args_zero with ext := riteBinExt }, []⟩

/-- Outcome of processing a single argv token inside the scanning loop. -/
inductive StepResult where
  | cont : ScanState → StepResult
  | brk : ScanState → StepResult
  | exitNow : Nat → ScanState → StepResult
  | failDone : ScanState → StepResult
  | failOpen : ScanState → StepResult
deriving DecidableEq, Repr

/-- The scan state carried by a step outcome. -/
@[simp] def StepResult.state : StepResult → ScanState
  | .cont s => s
  | .brk s => s
  | .exitNow _ s => s
  | .failDone s => s
  | .failOpen s => s

/-- Processing of a token that starts with `'-'` and has more characters
after it is dispatched on the switch character (`switch ((*argv)[1])`);
a lone `"-"` binds stdin as input and breaks out of the loop. -/
def stepDash (rest : Tok) (st : ScanState) : StepResult :=
  match rest with
  | [] =>
    .brk { st with
      infile := some ['-']
      args := { st.args with filename := some ['-'], rfp := some Stream.stdinS } }
  | c :: val =>
    if c = 'o' then
      match st.outfile with
      | some old => .failDone { st with evs := st.evs ++ [Event.msgOutputAlready old] }
      | none => .cont { st with outfile := some (get_outfilename val []) }
    else if c = 'B' then
      if val = [] then
        .failDone { st with
          args := { st.args with ext := cExt, initname := some val }
          evs := st.evs ++ [Event.msgFuncNameMissing] }
      else
        .cont { st with args := { st.args with ext := cExt, initname := some val } }
    else if c = 'c' then
      .cont { st with args := { st.args with checkSyntaxOnly := true } }
    else if c = 'v' then
      .cont { st with
        evs := if st.args.verbose then st.evs else st.evs ++ [Event.showVersion]
        args := { st.args with verbose := true } }
    else if c = 'g' then
      .cont { st with args := { st.args with debugInfo := true } }
    else if c = '-' then
      if val = "version".toList then
        .exitNow 0 { st with evs := st.evs ++ [Event.showVersion] }
      else if val = "verbose".toList then
        .cont { st with args := { st.args with verbose := true } }
      else if val = "copyright".toList then
        .exitNow 0 { st with evs := st.evs ++ [Event.showCopyright] }
      else .failDone st
    else .cont st

/-- Processing of a token that does not start with `'-'`: the first such
token becomes the input file and is opened via `fopen(infile, "r")` (the
oracle `fs` says which paths open successfully); later ones are ignored.
On open failure mrbc.c prints the message and jumps to the exit label
WITHOUT setting `result = EXIT_FAILURE`. -/
def stepFile (fs : Tok → Bool) (t : Tok) (st : ScanState) : StepResult :=
  match st.args.rfp with
  | some _ => .cont st
  | none =>
    if fs t then
      .cont { st with
        infile := some t
        evs := st.evs ++ [Event.openInput t]
        args := { st.args with filename := some t, rfp := some (Stream.fileR t) } }
    else
      .failOpen { st with
        infile := some t
        evs := st.evs ++ [Event.openInput t, Event.msgCannotOpenInput t]
        args := { st.args with filename := some t } }

/-- One iteration of the scanning loop of `parse_args`. -/
def step (fs : Tok → Bool) (t : Tok) (st : ScanState) : StepResult :=
  match t with
  | [] => stepFile fs [] st
  | c :: rest => if c = '-' then stepDash rest st else stepFile fs (c :: rest) st

/-- Result of `parse_args` as observed by `main`: either the process was
terminated inside the scan (`exit()` on `--version` / `--copyright`), or
`parse_args` returned `result` together with the filled `struct _args`. -/
inductive ParseResult where
  | exited : Nat → Args → List Event → ParseResult
  | done : Nat → Args → List Event → ParseResult
deriving DecidableEq, Repr

/-- The `_args` carried by a parse result. -/
@[simp] def ParseResult.argsOf : ParseResult → Args
  | .exited _ a _ => a
  | .done _ a _ => a

/-- The events carried by a parse result. -/
@[simp] def ParseResult.evsOf : ParseResult → List Event
  | .exited _ _ e => e
  | .done _ _ e => e

/-- The numeric result carried by a parse result. -/
@[simp] def ParseResult.codeOf : ParseResult → Nat
  | .exited n _ _ => n
  | .done n _ _ => n

/-- Output-path resolution of `parse_args`: the explicit `-o` path when
one was recorded, else `-` for stdin input, else the derived filename. -/
def resolveOut (st : ScanState) (infile : Tok) : Tok :=
  match st.outfile with
  | some o => o
  | none => if infile = ['-'] then infile else get_outfilename infile st.args.ext

/-- The code after the scanning loop of `parse_args`: fail when no input
was identified; otherwise, unless `-c` was given, resolve the output path
(explicit `-o`, stdout for stdin input, or derived via `get_outfilename`)
and open it (`wfs` is the fopen("wb") oracle). -/
def postScan (wfs : Tok → Bool) (st : ScanState) : ParseResult :=
  match st.infile with
  | none => .done 1 st.args st.evs
  | some infile =>
    if st.args.checkSyntaxOnly then .done 0 st.args st.evs
    else
      let outfile := resolveOut st infile
      if outfile = ['-'] then
        .done 0 { st.args with wfp := some Stream.stdoutS } st.evs
      else if wfs outfile then
        .done 0 { st.args with wfp := some (Stream.fileW outfile) }
          (st.evs ++ [Event.openOutput outfile])
      else
        .done 1 st.args
          (st.evs ++ [Event.openOutput outfile, Event.msgCannotOpenOutput outfile])

/-- The scanning loop of `parse_args` over the remaining argv tokens. -/
def scanLoop (fs wfs : Tok → Bool) (toks : List Tok) (st : ScanState) : ParseResult :=
  match toks with
  | [] => postScan wfs st
  | t :: rest =>
    match step fs t st with
    | .cont st2 => scanLoop fs wfs rest st2
    | .brk st2 => postScan wfs st2
    | .exitNow code st2 => .exited code st2.args st2.evs
    | .failDone st2 => .done 1 st2.args st2.evs
    | .failOpen st2 => .done 0 st2.args st2.evs

/-- The `parse_args` function of mrbc.c: scan `argv[1..]` left to right starting from
the zero-initialized state. -/
def parse_args (fs wfs : Tok → Bool) (argv : List Tok) : ParseResult :=
  scanLoop fs wfs argv.tail initState

/-- Return codes of the dump (serializer) collaborators, from
mruby/dump.h (`MRB_DUMP_OK`, `MRB_DUMP_GENERAL_FAILURE`,
`MRB_DUMP_WRITE_FAULT`, `MRB_DUMP_INVALID_ARGUMENT`). -/
inductive DumpResult where
  | ok : DumpResult
  | generalFailure : DumpResult
  | writeFault : DumpResult
  | invalidArgument : DumpResult
deriving DecidableEq, Repr

/-- Observable outcome of a whole process run: the exit code, the event
trace, and whether the input stream, output stream and the engine context
(`mrb_state`) are still open (i.e. leaked) when the process exits. -/
structure MainResult where
  code : Nat
  events : List Event
  rfpOpen : Bool
  wfpOpen : Bool
  mrbOpen : Bool
deriving DecidableEq, Repr

/-- The `main` function of mrbc.c.  Oracles: `fs` / `wfs` decide which paths `fopen`
accepts for reading / writing; `compileOk filename stream` is whether
`mrb_load_file_cxt` succeeds (not undef and non-negative); `dumpCfunc
initname wfp` and `dumpBinary wfp` are the serializer return codes.
`cleanup` (fclose both streams, `mrb_close`) is reflected by the three
open-resource flags of the result: a path that runs `cleanup` ends with
all three `false`. -/
def main (fs wfs : Tok → Bool) (compileOk : Option Tok → Stream → Bool)
    (dumpCfunc : Tok → Option Stream → DumpResult)
    (dumpBinary : Option Stream → DumpResult)
    (argv : List Tok) : MainResult :=
  match parse_args fs wfs argv with
  | .exited code args evs =>
    -- exit() inside parse_args terminates the process: no cleanup runs.
    ⟨code, evs, args.rfp.isSome, args.wfp.isSome, true⟩
  | .done n args evs =>
    match args.rfp with
    | none => ⟨n, evs ++ [Event.usage], false, false, false⟩
    | some r =>
      if n = 1 then ⟨n, evs ++ [Event.usage], false, false, false⟩
      else if compileOk args.filename r = false then ⟨1, evs, false, false, false⟩
      else if args.checkSyntaxOnly then ⟨0, evs ++ [Event.syntaxOK], false, false, false⟩
      else
        match args.initname with
        | some nm =>
          if dumpCfunc nm args.wfp = DumpResult.invalidArgument then
            -- return EXIT_FAILURE without calling cleanup().
            ⟨1, evs ++ [Event.msgInvalidSymbol nm], true, args.wfp.isSome, true⟩
          else ⟨0, evs, false, false, false⟩
        | none =>
          -- n = mrb_dump_irep_binary(...); the return value is discarded.
          match dumpBinary args.wfp with
          | _ => ⟨0, evs, false, false, false⟩

/-- File-system oracle accepting every path. -/
def fsAll : Tok → Bool := fun _ => true

/-- File-system oracle rejecting every path. -/
def fsNone : Tok → Bool := fun _ => false

/-- Compiler oracle that always succeeds. -/
def coAll : Option Tok → Stream → Bool := fun _ _ => true

/-- C-source serializer oracle that always reports success. -/
def dcOk : Tok → Option Stream → DumpResult := fun _ _ => DumpResult.ok

/-- Binary serializer oracle that always reports success. -/
def dbOk : Option Stream → DumpResult := fun _ => DumpResult.ok

/-- The program name token, argv[0]. -/
def mrbcTok : Tok := "mrbc".toList

/-- The derivation rule as claim C4 words it (written from the claim, not
from the source, for comparison): the file extension is located at the last
dot of the FILENAME — the part after the last path separator — and is
replaced there, or appended when the filename contains no dot. -/
def derive_claimC4 (p ext : Tok) : Tok :=
  match lastIdxOf '/' p with
  | none =>
    match lastIdxOf '.' p with
    | none => p ++ ext
    | some j => p.take j ++ ext
  | some i =>
    match lastIdxOf '.' (p.drop (i + 1)) with
    | none => p ++ ext
    | some j => p.take (i + 1) ++ (p.drop (i + 1)).take j ++ ext

/-- Single-dash switch tokens that can never by themselves terminate the
process or end the scan: every `-X<value>` except a long `--` flag and
except `-B` with an empty symbol name.  (`-o` is included: a FIRST `-o`
just records the output path; only a duplicate one, tracked separately
via `countO`, aborts the scan.) -/
def preSwitch (t : Tok) : Bool :=
  match t with
  | c0 :: c :: val => (c0 == '-') && (c != '-') && ((c != 'B') || (val != []))
  | _ => false

/-- Whether a token is an `-o<path>` switch. -/
def isOFlag (t : Tok) : Bool :=
  match t with
  | c0 :: c :: _ => (c0 == '-') && (c == 'o')
  | _ => false

/-- Number of `-o<path>` switches in a token list. -/
def countO (pre : List Tok) : Nat := (pre.filter isOFlag).length

/-- The events that the scanning loop itself (as opposed to the post-scan
output resolution or `main`) can emit. -/
def stepEvent : Event → Bool
  | .showVersion => true
  | .showCopyright => true
  | .msgOutputAlready _ => true
  | .msgFuncNameMissing => true
  | .msgCannotOpenInput _ => true
  | .openInput _ => true
  | _ => false

/-- Claim C1: an unopenable input file is reported with its path, and the
claim says the process then exits non-zero.  The code prints the message
and the usage text but jumps to the exit label of `parse_args` without
setting `result = EXIT_FAILURE` (every sibling error branch sets it), so
`main` returns 0: the reporting happens, the non-zero exit does not. -/
theorem c1_cannot_open_input_exits_zero :
    (main fsNone fsAll coAll dcOk dbOk [mrbcTok, "nosuch.rb".toList]).code = 0
    ∧ Event.msgCannotOpenInput "nosuch.rb".toList
        ∈ (main fsNone fsAll coAll dcOk dbOk [mrbcTok, "nosuch.rb".toList]).events
    ∧ Event.usage ∈ (main fsNone fsAll coAll dcOk dbOk [mrbcTok, "nosuch.rb".toList]).events := by
  decide

/-- Claim C2, counterexample: a run that reaches binary serialization and
whose serializer reports a write fault exits with code 0 and emits no
failure message at all — the binary dump's return value is discarded. -/
theorem c2_write_fault_ignored_cex :
    (main fsAll fsAll coAll dcOk (fun _ => DumpResult.writeFault)
        [mrbcTok, "a.rb".toList]).code = 0
    ∧ (main fsAll fsAll coAll dcOk (fun _ => DumpResult.writeFault)
        [mrbcTok, "a.rb".toList]).events
      = [Event.openInput "a.rb".toList, Event.openOutput "a.mrb".toList] := by
  decide

/-- Claim C3, counterexample: on the failure path where the C-source
serializer rejects the symbol name, `main` returns EXIT_FAILURE without
calling `cleanup`, so the input stream, the output stream and the engine
context are all still open when the process exits. -/
theorem c3_invalid_symbol_leak_cex :
    (main fsAll fsAll coAll (fun _ _ => DumpResult.invalidArgument) dbOk
        [mrbcTok, "-Bmain".toList, "a.rb".toList]).code = 1
    ∧ (main fsAll fsAll coAll (fun _ _ => DumpResult.invalidArgument) dbOk
        [mrbcTok, "-Bmain".toList, "a.rb".toList]).rfpOpen = true
    ∧ (main fsAll fsAll coAll (fun _ _ => DumpResult.invalidArgument) dbOk
        [mrbcTok, "-Bmain".toList, "a.rb".toList]).wfpOpen = true
    ∧ (main fsAll fsAll coAll (fun _ _ => DumpResult.invalidArgument) dbOk
        [mrbcTok, "-Bmain".toList, "a.rb".toList]).mrbOpen = true := by
  decide

/-- Claim C4, counterexample: for input `dir.d/foo` the code replaces at
the last dot anywhere in the path (`strrchr` over the whole string) and
derives `dir.mrb`, while the claim's rule — last dot of the filename, or
append when the filename has none — prescribes `dir.d/foo.mrb`. -/
theorem c4_dot_in_directory_cex :
    (parse_args fsAll fsAll [mrbcTok, "dir.d/foo".toList]).argsOf.wfp
        = some (Stream.fileW "dir.mrb".toList)
    ∧ derive_claimC4 "dir.d/foo".toList riteBinExt = "dir.d/foo.mrb".toList
    ∧ "dir.mrb".toList ≠ "dir.d/foo.mrb".toList := by
  decide

/-- Claim C5, counterexample: when an input-file token precedes
`--version`, the left-to-right scan opens the input file before the flag
is seen, so the run does attempt to open an input file (the exit code is
still 0). -/
theorem c5_input_opened_before_version_cex :
    Event.openInput "a.rb".toList
      ∈ (main fsAll fsAll coAll dcOk dbOk
          [mrbcTok, "a.rb".toList, "--version".toList]).events
    ∧ (main fsAll fsAll coAll dcOk dbOk
          [mrbcTok, "a.rb".toList, "--version".toList]).code = 0 := by
  decide

/-- Claim C6, counterexample: a `-c` token AFTER the input file has bound
the input is still processed — the resolved configuration differs from the
one without it (checkSyntaxOnly becomes true), so not every subsequent
token is ignored. -/
theorem c6_switch_after_input_processed_cex :
    parse_args fsAll fsAll [mrbcTok, "foo.rb".toList, "-c".toList]
      ≠ parse_args fsAll fsAll [mrbcTok, "foo.rb".toList]
    ∧ (parse_args fsAll fsAll
        [mrbcTok, "foo.rb".toList, "-c".toList]).argsOf.checkSyntaxOnly = true := by
  decide

/-- Claim C9, counterexample: the argument list `-oa - -ob` contains two
`-o` flags, yet resolution succeeds (a lone `-` stops the scan before the
second `-o` is seen), no "already specified" message is printed, and an
output stream IS opened on path `a`. -/
theorem c9_dup_o_not_reached_cex :
    (parse_args fsAll fsAll [mrbcTok, "-oa".toList, "-".toList, "-ob".toList]).codeOf = 0
    ∧ (parse_args fsAll fsAll [mrbcTok, "-oa".toList, "-".toList, "-ob".toList]).argsOf.wfp
        = some (Stream.fileW "a".toList)
    ∧ Event.msgOutputAlready "a".toList
        ∉ (parse_args fsAll fsAll [mrbcTok, "-oa".toList, "-".toList, "-ob".toList]).evsOf := by
  decide

/-- A single-dash switch whose switch character is unrecognized falls into
the empty `default:` arm of the scan and leaves the state untouched. -/
theorem step_unknown_switch (fs : Tok → Bool) (c : Char) (val : Tok) (st : ScanState)
    (hc : c ∉ (['o', 'B', 'c', 'v', 'g', '-'] : List Char)) :
    step fs ('-' :: c :: val) st = StepResult.cont st := by
  simp only [List.mem_cons, List.not_mem_nil, or_false, not_or] at hc
  obtain ⟨h1, h2, h3, h4, h5, h6⟩ := hc
  simp [step, stepDash, h1, h2, h3, h4, h5, h6]

/-- Inserting a token whose processing is a no-op anywhere into the token
stream does not change the scan's outcome. -/
theorem scanLoop_insert_noop (fs wfs : Tok → Bool) (t : Tok) (post : List Tok)
    (hstep : ∀ st, step fs t st = StepResult.cont st) :
    ∀ (pre : List Tok) (st : ScanState),
      scanLoop fs wfs (pre ++ t :: post) st = scanLoop fs wfs (pre ++ post) st := by
  intro pre
  induction pre with
  | nil => intro st; simp [scanLoop, hstep]
  | cons p pre ih =>
    intro st
    simp only [List.cons_append, scanLoop]
    cases hs : step fs p st <;> simp [ih]

/-- Claim C10: a single-dash switch with an unrecognized switch character
(such as `-x`) is silently ignored: removing it from the argument list
leaves the resolved configuration, emitted messages and result identical. -/
theorem c10_unknown_switch_ignored (fs wfs : Tok → Bool) (name : Tok) (c : Char)
    (val : Tok) (pre post : List Tok)
    (hc : c ∉ (['o', 'B', 'c', 'v', 'g', '-'] : List Char)) :
    parse_args fs wfs (name :: (pre ++ ('-' :: c :: val) :: post)) =
      parse_args fs wfs (name :: (pre ++ post)) := by
  simp only [parse_args, List.tail_cons]
  exact scanLoop_insert_noop fs wfs _ post
    (fun st => step_unknown_switch fs c val st hc) pre initState

/-- Witness for C10 at the concrete token `-x`. -/
theorem c10_unknown_switch_ignored_wit :
    ('x' ∉ (['o', 'B', 'c', 'v', 'g', '-'] : List Char))
    ∧ parse_args fsAll fsAll (mrbcTok :: ([] ++ ('-' :: 'x' :: []) :: ["a.rb".toList]))
        = parse_args fsAll fsAll (mrbcTok :: ([] ++ ["a.rb".toList])) :=
  ⟨by decide,
   c10_unknown_switch_ignored fsAll fsAll mrbcTok 'x' [] [] ["a.rb".toList] (by decide)⟩

/-- Claim C6 as amended: once the input is bound (the input stream is
set), any further NON-switch token is silently ignored: no message, no
state change, scanning continues as if the token were absent.  (Switch
tokens after the input are still processed — see the counterexample — and
after a lone `-` the scan stops entirely.) -/
theorem c6_nonswitch_after_input_ignored (fs wfs : Tok → Bool) (c : Char) (cs : Tok)
    (rest : List Tok) (st : ScanState) (r : Stream)
    (hc : c ≠ '-') (hr : st.args.rfp = some r) :
    scanLoop fs wfs ((c :: cs) :: rest) st = scanLoop fs wfs rest st := by
  simp [scanLoop, step, hc, stepFile, hr]

/-- Witness for the amended C6: a second file token after `a.rb` has bound
the input is a no-op. -/
theorem c6_nonswitch_after_input_ignored_wit :
    ('e' ≠ '-')
    ∧ ({ initState with
          args := { initState.args with rfp := some (Stream.fileR "a.rb".toList) } }
        : ScanState).args.rfp = some (Stream.fileR "a.rb".toList)
    ∧ scanLoop fsAll fsAll (('e' :: "xtra.rb".toList) :: [])
          { initState with
            args := { initState.args with rfp := some (Stream.fileR "a.rb".toList) } }
        = scanLoop fsAll fsAll []
          { initState with
            args := { initState.args with rfp := some (Stream.fileR "a.rb".toList) } } :=
  ⟨by decide, by decide,
   c6_nonswitch_after_input_ignored fsAll fsAll 'e' "xtra.rb".toList []
     { initState with
       args := { initState.args with rfp := some (Stream.fileR "a.rb".toList) } }
     (Stream.fileR "a.rb".toList) (by decide) (by decide)⟩

/-- Claim C8: a lone `-` token binds stdin as the input, stops the scan
(the remaining tokens do not appear in the result), and — when no `-o`
was recorded and checkSyntaxOnly is off — binds the output to stdout
rather than deriving a filename. -/
theorem c8_lone_dash_stdin_stdout (fs wfs : Tok → Bool) (rest : List Tok)
    (st : ScanState) (ho : st.outfile = none) (hc : st.args.checkSyntaxOnly = false) :
    scanLoop fs wfs (['-'] :: rest) st =
      ParseResult.done 0
        { st.args with
          filename := some ['-']
          rfp := some Stream.stdinS
          wfp := some Stream.stdoutS }
        st.evs := by
  obtain ⟨inf, outf, ⟨rf, wf, fn, inm, ex, cso, vb, dg⟩, evs⟩ := st
  simp only at ho hc
  subst ho hc
  simp [scanLoop, step, stepDash, postScan, resolveOut]

/-- Witness for C8: `mrbc - zzz` reads stdin, writes stdout, ignores
`zzz`. -/
theorem c8_lone_dash_stdin_stdout_wit :
    initState.outfile = none
    ∧ initState.args.checkSyntaxOnly = false
    ∧ scanLoop fsAll fsAll (['-'] :: ["zzz".toList]) initState
        = ParseResult.done 0
            { initState.args with
              filename := some ['-']
              rfp := some Stream.stdinS
              wfp := some Stream.stdoutS }
            initState.evs :=
  ⟨by decide, by decide,
   c8_lone_dash_stdin_stdout fsAll fsAll ["zzz".toList] initState (by decide) (by decide)⟩

/-- Claim C9 as amended: when a second `-o` flag is actually reached by
the scan (an output path is already recorded), resolution fails
immediately with the "already specified" message and result 1, the
configuration is returned as-is (in particular no output stream is ever
opened, since the scan itself never opens one), and the remaining tokens
are not scanned.  An argument list can still contain two `-o` flags without
this error when the scan stops earlier — see the counterexample. -/
theorem c9_second_o_flag_fails_amended (fs wfs : Tok → Bool) (val : Tok)
    (rest : List Tok) (st : ScanState) (old : Tok) (h : st.outfile = some old) :
    scanLoop fs wfs (('-' :: 'o' :: val) :: rest) st =
      ParseResult.done 1 st.args (st.evs ++ [Event.msgOutputAlready old]) := by
  simp [scanLoop, step, stepDash, h]

/-- Witness for the amended C9: `-oa -ob` fails with the message naming
`a`, and the returned configuration has no output stream. -/
theorem c9_second_o_flag_fails_amended_wit :
    ({ initState with outfile := some "a".toList } : ScanState).outfile = some "a".toList
    ∧ scanLoop fsAll fsAll (('-' :: 'o' :: "b".toList) :: ["x.rb".toList])
          { initState with outfile := some "a".toList }
        = ParseResult.done 1 ({ initState with outfile := some "a".toList } : ScanState).args
            (({ initState with outfile := some "a".toList } : ScanState).evs
              ++ [Event.msgOutputAlready "a".toList]) :=
  ⟨by decide,
   c9_second_o_flag_fails_amended fsAll fsAll "b".toList ["x.rb".toList]
     { initState with outfile := some "a".toList } "a".toList (by decide)⟩

/-- Claim C2 as amended: in a run that reaches the serialization step,
only the C-source serializer's invalid-symbol-name report is acted upon
(message plus exit code 1); every other serializer result — including
write faults, in either format — is ignored and the process exits 0. -/
theorem c2_serializer_failure_amended (fs wfs : Tok → Bool)
    (co : Option Tok → Stream → Bool) (dc : Tok → Option Stream → DumpResult)
    (db : Option Stream → DumpResult) (argv : List Tok)
    (args : Args) (evs : List Event) (r : Stream)
    (hp : parse_args fs wfs argv = ParseResult.done 0 args evs)
    (hr : args.rfp = some r) (hco : co args.filename r = true)
    (hcs : args.checkSyntaxOnly = false) :
    (args.initname = none → (main fs wfs co dc db argv).code = 0)
    ∧ (∀ nm, args.initname = some nm →
        (dc nm args.wfp = DumpResult.invalidArgument →
          (main fs wfs co dc db argv).code = 1
          ∧ Event.msgInvalidSymbol nm ∈ (main fs wfs co dc db argv).events)
        ∧ (dc nm args.wfp ≠ DumpResult.invalidArgument →
          (main fs wfs co dc db argv).code = 0)) := by
  refine ⟨fun hn => ?_, fun nm hn => ⟨fun hd => ?_, fun hd => ?_⟩⟩
  · simp [main, hp, hr, hco, hcs, hn]
  · simp [main, hp, hr, hco, hcs, hn, hd]
  · simp [main, hp, hr, hco, hcs, hn, hd]

/-- Witness for the amended C2 at `mrbc -Bmain a.rb` with an
always-successful compiler and serializers. -/
theorem c2_serializer_failure_amended_wit :
    parse_args fsAll fsAll [mrbcTok, "-Bmain".toList, "a.rb".toList]
      = ParseResult.done 0
          ⟨some (Stream.fileR "a.rb".toList), some (Stream.fileW "a.c".toList),
            some "a.rb".toList, some "main".toList, cExt, false, false, false⟩
          [Event.openInput "a.rb".toList, Event.openOutput "a.c".toList]
    ∧ ((Args.initname ⟨some (Stream.fileR "a.rb".toList), some (Stream.fileW "a.c".toList),
            some "a.rb".toList, some "main".toList, cExt, false, false, false⟩ = none →
        (main fsAll fsAll coAll dcOk dbOk [mrbcTok, "-Bmain".toList, "a.rb".toList]).code = 0)
      ∧ (∀ nm, Args.initname ⟨some (Stream.fileR "a.rb".toList), some (Stream.fileW "a.c".toList),
            some "a.rb".toList, some "main".toList, cExt, false, false, false⟩ = some nm →
          (dcOk nm (some (Stream.fileW "a.c".toList)) = DumpResult.invalidArgument →
            (main fsAll fsAll coAll dcOk dbOk [mrbcTok, "-Bmain".toList, "a.rb".toList]).code = 1
            ∧ Event.msgInvalidSymbol nm
                ∈ (main fsAll fsAll coAll dcOk dbOk [mrbcTok, "-Bmain".toList, "a.rb".toList]).events)
          ∧ (dcOk nm (some (Stream.fileW "a.c".toList)) ≠ DumpResult.invalidArgument →
            (main fsAll fsAll coAll dcOk dbOk [mrbcTok, "-Bmain".toList, "a.rb".toList]).code = 0))) :=
  ⟨by decide,
   c2_serializer_failure_amended fsAll fsAll coAll dcOk dbOk
     [mrbcTok, "-Bmain".toList, "a.rb".toList]
     ⟨some (Stream.fileR "a.rb".toList), some (Stream.fileW "a.c".toList),
       some "a.rb".toList, some "main".toList, cExt, false, false, false⟩
     [Event.openInput "a.rb".toList, Event.openOutput "a.c".toList]
     (Stream.fileR "a.rb".toList) (by decide) (by decide) (by decide) (by decide)⟩

/-- Claim C3 as amended: on every exit path the input stream, output
stream and engine context are released, EXCEPT on two paths where they are
leaked: the immediate `exit()` of `--version`/`--copyright` inside the
scan (the engine context is still open there), and the C-source
invalid-symbol-name failure path (input stream, output stream and engine
context all remain open). -/
theorem c3_resource_release_amended (fs wfs : Tok → Bool)
    (co : Option Tok → Stream → Bool) (dc : Tok → Option Stream → DumpResult)
    (db : Option Stream → DumpResult) (argv : List Tok) :
    ((main fs wfs co dc db argv).rfpOpen = false
      ∧ (main fs wfs co dc db argv).wfpOpen = false
      ∧ (main fs wfs co dc db argv).mrbOpen = false)
    ∨ (∃ code args evs, parse_args fs wfs argv = ParseResult.exited code args evs
        ∧ (main fs wfs co dc db argv).mrbOpen = true)
    ∨ (∃ n args evs nm, parse_args fs wfs argv = ParseResult.done n args evs
        ∧ args.initname = some nm
        ∧ dc nm args.wfp = DumpResult.invalidArgument
        ∧ (main fs wfs co dc db argv).code = 1
        ∧ (main fs wfs co dc db argv).rfpOpen = true
        ∧ (main fs wfs co dc db argv).mrbOpen = true) := by
  cases hp : parse_args fs wfs argv with
  | exited code args evs =>
    exact Or.inr (Or.inl ⟨code, args, evs, rfl, by simp [main, hp]⟩)
  | done n args evs =>
    cases hr : args.rfp with
    | none => exact Or.inl (by simp [main, hp, hr])
    | some r =>
      by_cases hn : n = 1
      · exact Or.inl (by simp [main, hp, hr, hn])
      · by_cases hco : co args.filename r = false
        · exact Or.inl (by simp [main, hp, hr, hn, hco])
        · by_cases hcs : args.checkSyntaxOnly = true
          · exact Or.inl (by simp [main, hp, hr, hn, hco, hcs])
          · cases hin : args.initname with
            | none => exact Or.inl (by simp [main, hp, hr, hn, hco, hcs, hin])
            | some nm =>
              by_cases hd : dc nm args.wfp = DumpResult.invalidArgument
              · exact Or.inr (Or.inr ⟨n, args, evs, nm, rfl, hin, hd,
                  by simp [main, hp, hr, hn, hco, hcs, hin, hd],
                  by simp [main, hp, hr, hn, hco, hcs, hin, hd],
                  by simp [main, hp, hr, hn, hco, hcs, hin, hd]⟩)
              · exact Or.inl (by simp [main, hp, hr, hn, hco, hcs, hin, hd])

/-- One loop iteration never touches the output stream field and extends
the event list only with scan events (never `openOutput`, `syntaxOK`,
`usage` or `msgInvalidSymbol`). -/
theorem step_state_inv (fs : Tok → Bool) (t : Tok) (st : ScanState) :
    ((step fs t st).state).args.wfp = st.args.wfp
    ∧ ∀ e ∈ ((step fs t st).state).evs, e ∈ st.evs ∨ stepEvent e = true := by
  have mem : ∀ (evs new : List Event), (∀ e ∈ new, stepEvent e = true) →
      ∀ e ∈ evs ++ new, e ∈ evs ∨ stepEvent e = true := by
    intro evs new hn e he
    rcases List.mem_append.mp he with h | h
    · exact Or.inl h
    · exact Or.inr (hn e h)
  cases t with
  | nil =>
    simp only [step, stepFile]
    cases hr : st.args.rfp with
    | some r => exact ⟨rfl, fun e he => Or.inl he⟩
    | none =>
      by_cases hf : fs [] = true
      · simp only [hf, if_true]
        exact ⟨rfl, mem _ _ (by simp [stepEvent])⟩
      · simp only [hf, if_false]
        exact ⟨rfl, mem _ _ (by simp [stepEvent])⟩
  | cons c rest =>
    simp only [step]
    by_cases hdash : c = '-'
    · subst hdash
      simp only [if_pos rfl]
      cases rest with
      | nil => exact ⟨rfl, fun e he => Or.inl he⟩
      | cons c2 val =>
        simp only [stepDash]
        by_cases h1 : c2 = 'o'
        · subst h1
          simp only [if_pos rfl]
          cases ho : st.outfile with
          | some old => exact ⟨rfl, mem _ _ (by simp [stepEvent])⟩
          | none => exact ⟨rfl, fun e he => Or.inl he⟩
        · simp only [if_neg h1]
          by_cases h2 : c2 = 'B'
          · subst h2
            simp only [if_pos rfl]
            by_cases h3 : val = []
            · simp only [if_pos h3]
              exact ⟨rfl, mem _ _ (by simp [stepEvent])⟩
            · simp only [if_neg h3]
              exact ⟨rfl, fun e he => Or.inl he⟩
          · simp only [if_neg h2]
            by_cases h3 : c2 = 'c'
            · subst h3
              simp only [if_pos rfl]
              exact ⟨rfl, fun e he => Or.inl he⟩
            · simp only [if_neg h3]
              by_cases h4 : c2 = 'v'
              · subst h4
                simp only [if_pos rfl]
                by_cases h5 : st.args.verbose = true
                · simp only [h5, if_true]
                  exact ⟨rfl, fun e he => Or.inl he⟩
                · simp only [h5, if_false]
                  exact ⟨rfl, mem _ _ (by simp [stepEvent])⟩
              · simp only [if_neg h4]
                by_cases h6 : c2 = 'g'
                · subst h6
                  simp only [if_pos rfl]
                  exact ⟨rfl, fun e he => Or.inl he⟩
                · simp only [if_neg h6]
                  by_cases h7 : c2 = '-'
                  · subst h7
                    simp only [if_pos rfl]
                    by_cases h8 : val = "version".toList
                    · simp only [if_pos h8]
                      exact ⟨rfl, mem _ _ (by simp [stepEvent])⟩
                    · simp only [if_neg h8]
                      by_cases h9 : val = "verbose".toList
                      · simp only [if_pos h9]
                        exact ⟨rfl, fun e he => Or.inl he⟩
                      · simp only [if_neg h9]
                        by_cases h10 : val = "copyright".toList
                        · simp only [if_pos h10]
                          exact ⟨rfl, mem _ _ (by simp [stepEvent])⟩
                        · simp only [if_neg h10]
                          exact ⟨rfl, fun e he => Or.inl he⟩
                  · simp only [if_neg h7]
                    exact ⟨rfl, fun e he => Or.inl he⟩
    · simp only [if_neg hdash, stepFile]
      cases hr : st.args.rfp with
      | some r => exact ⟨rfl, fun e he => Or.inl he⟩
      | none =>
        by_cases hf : fs (c :: rest) = true
        · simp only [hf, if_true]
          exact ⟨rfl, mem _ _ (by simp [stepEvent])⟩
        · simp only [hf, if_false]
          exact ⟨rfl, mem _ _ (by simp [stepEvent])⟩

/-- When the scan's final configuration has checkSyntaxOnly set, the
post-scan phase neither opens an output stream nor emits any event. -/
theorem postScan_checkOnly (wfs : Tok → Bool) (st : ScanState) (n : Nat) (args : Args)
    (evs : List Event) (h : postScan wfs st = ParseResult.done n args evs)
    (hcs : args.checkSyntaxOnly = true) :
    args.wfp = st.args.wfp ∧ evs = st.evs := by
  cases hi : st.infile with
  | none =>
    simp only [postScan, hi] at h
    cases h; exact ⟨rfl, rfl⟩
  | some i =>
    by_cases hcso : st.args.checkSyntaxOnly = true
    · simp only [postScan, hi, hcso, if_true] at h
      cases h; exact ⟨rfl, rfl⟩
    · exfalso
      by_cases hd : resolveOut st i = ['-']
      · simp only [postScan, hi, hcso, if_false, hd, if_true] at h
        cases h; simp_all
      · by_cases hw : wfs (resolveOut st i) = true
        · simp only [postScan, hi, hcso, if_false, hd, hw, if_true] at h
          cases h; simp_all
        · simp only [postScan, hi, hcso, if_false, hd, hw] at h
          cases h; simp_all

/-- Over the whole scan: a result whose configuration has checkSyntaxOnly
set carries no output stream and only scan-loop events. -/
theorem scanLoop_checkOnly (fs wfs : Tok → Bool) :
    ∀ (toks : List Tok) (st : ScanState) (n : Nat) (args : Args) (evs : List Event),
      scanLoop fs wfs toks st = ParseResult.done n args evs →
      args.checkSyntaxOnly = true →
      args.wfp = st.args.wfp ∧ ∀ e ∈ evs, e ∈ st.evs ∨ stepEvent e = true := by
  intro toks
  induction toks with
  | nil =>
    intro st n args evs h hcs
    simp only [scanLoop] at h
    obtain ⟨hw, he⟩ := postScan_checkOnly wfs st n args evs h hcs
    exact ⟨hw, by rw [he]; exact fun e he2 => Or.inl he2⟩
  | cons t ts ih =>
    intro st n args evs h hcs
    simp only [scanLoop] at h
    obtain ⟨hw, hevs⟩ := step_state_inv fs t st
    cases hs : step fs t st with
    | cont st2 =>
      rw [hs] at h hw hevs
      simp only [StepResult.state] at hw hevs
      obtain ⟨hw2, hevs2⟩ := ih st2 n args evs h hcs
      exact ⟨hw2.trans hw, fun e he =>
        (hevs2 e he).elim (fun h2 => hevs e h2) Or.inr⟩
    | brk st2 =>
      rw [hs] at h hw hevs
      simp only [StepResult.state] at hw hevs
      obtain ⟨hw2, he2⟩ := postScan_checkOnly wfs st2 n args evs h hcs
      exact ⟨hw2.trans hw, by rw [he2]; exact hevs⟩
    | exitNow code st2 => rw [hs] at h; cases h
    | failDone st2 =>
      rw [hs] at h hw hevs
      simp only [StepResult.state] at hw hevs
      cases h
      exact ⟨hw, hevs⟩
    | failOpen st2 =>
      rw [hs] at h hw hevs
      simp only [StepResult.state] at hw hevs
      cases h
      exact ⟨hw, hevs⟩

/-- Claim C7: when the resolved configuration has checkSyntaxOnly set, no
output stream is ever opened and no output file created — even when `-o`
or `-B` flags were also given: the configuration carries no output stream
and no openOutput event is ever emitted, by resolution or by `main`.  When
compilation succeeds the run prints "Syntax OK" and exits 0 without
invoking any serializer (the outcome is independent of both serializer
oracles); when compilation fails it exits 1 without printing
"Syntax OK". -/
theorem c7_checkonly_no_output (fs wfs : Tok → Bool)
    (co : Option Tok → Stream → Bool) (dc : Tok → Option Stream → DumpResult)
    (db : Option Stream → DumpResult) (argv : List Tok)
    (n : Nat) (args : Args) (evs : List Event)
    (hp : parse_args fs wfs argv = ParseResult.done n args evs)
    (hcs : args.checkSyntaxOnly = true) :
    args.wfp = none
    ∧ (∀ p, Event.openOutput p ∉ evs)
    ∧ (∀ p, Event.openOutput p ∉ (main fs wfs co dc db argv).events)
    ∧ (∀ r, args.rfp = some r → n = 0 →
        (∀ dc2 db2, main fs wfs co dc2 db2 argv = main fs wfs co dc db argv)
        ∧ (co args.filename r = true →
            (main fs wfs co dc db argv).code = 0
            ∧ Event.syntaxOK ∈ (main fs wfs co dc db argv).events)
        ∧ (co args.filename r = false →
            (main fs wfs co dc db argv).code = 1
            ∧ Event.syntaxOK ∉ (main fs wfs co dc db argv).events)) := by
  have hp2 : scanLoop fs wfs argv.tail initState = ParseResult.done n args evs := hp
  obtain ⟨hw, hmem⟩ := scanLoop_checkOnly fs wfs argv.tail initState n args evs hp2 hcs
  have hwn : args.wfp = none := by rw [hw]; rfl
  have hevs : ∀ e ∈ evs, stepEvent e = true := by
    intro e he
    rcases hmem e he with h | h
    · exact absurd h (by simp [initState])
    · exact h
  have hout : ∀ p, Event.openOutput p ∉ evs := by
    intro p hmm
    have := hevs _ hmm
    simp [stepEvent] at this
  have hsok : Event.syntaxOK ∉ evs := by
    intro hmm
    have := hevs _ hmm
    simp [stepEvent] at this
  refine ⟨hwn, hout, ?_, ?_⟩
  · intro p
    cases hr : args.rfp with
    | none => simpa [main, hp, hr] using hout p
    | some r =>
      by_cases hn : n = 1
      · simpa [main, hp, hr, hn] using hout p
      · by_cases hco : co args.filename r = false
        · simpa [main, hp, hr, hn, hco] using hout p
        · simpa [main, hp, hr, hn, hco, hcs] using hout p
  · intro r hr hn
    subst hn
    refine ⟨fun dc2 db2 => ?_, fun hco => ?_, fun hco => ?_⟩
    · by_cases hco : co args.filename r = false
      · simp [main, hp, hr, hco]
      · simp [main, hp, hr, hco, hcs]
    · constructor
      · simp [main, hp, hr, hco, hcs]
      · simp [main, hp, hr, hco, hcs]
    · constructor
      · simp [main, hp, hr, hco]
      · simpa [main, hp, hr, hco] using hsok

/-- Witness for C7 at `mrbc -c -oout.mrb -Bmain a.rb` with an
always-succeeding compiler. -/
theorem c7_checkonly_no_output_wit :
    parse_args fsAll fsAll
        [mrbcTok, "-c".toList, "-oout.mrb".toList, "-Bmain".toList, "a.rb".toList]
      = ParseResult.done 0
          ⟨some (Stream.fileR "a.rb".toList), none, some "a.rb".toList,
            some "main".toList, cExt, true, false, false⟩
          [Event.openInput "a.rb".toList]
    ∧ (Args.checkSyntaxOnly
        ⟨some (Stream.fileR "a.rb".toList), none, some "a.rb".toList,
          some "main".toList, cExt, true, false, false⟩ = true)
    ∧ (Args.wfp
          ⟨some (Stream.fileR "a.rb".toList), none, some "a.rb".toList,
            some "main".toList, cExt, true, false, false⟩ = none
        ∧ (∀ p, Event.openOutput p ∉ [Event.openInput "a.rb".toList])
        ∧ (∀ p, Event.openOutput p ∉ (main fsAll fsAll coAll dcOk dbOk
            [mrbcTok, "-c".toList, "-oout.mrb".toList, "-Bmain".toList, "a.rb".toList]).events)
        ∧ (∀ r, Args.rfp
              ⟨some (Stream.fileR "a.rb".toList), none, some "a.rb".toList,
                some "main".toList, cExt, true, false, false⟩ = some r → 0 = 0 →
            (∀ dc2 db2, main fsAll fsAll coAll dc2 db2
                [mrbcTok, "-c".toList, "-oout.mrb".toList, "-Bmain".toList, "a.rb".toList]
              = main fsAll fsAll coAll dcOk dbOk
                [mrbcTok, "-c".toList, "-oout.mrb".toList, "-Bmain".toList, "a.rb".toList])
            ∧ (coAll (Args.filename
                  ⟨some (Stream.fileR "a.rb".toList), none, some "a.rb".toList,
                    some "main".toList, cExt, true, false, false⟩) r = true →
                (main fsAll fsAll coAll dcOk dbOk
                  [mrbcTok, "-c".toList, "-oout.mrb".toList, "-Bmain".toList, "a.rb".toList]).code = 0
                ∧ Event.syntaxOK ∈ (main fsAll fsAll coAll dcOk dbOk
                  [mrbcTok, "-c".toList, "-oout.mrb".toList, "-Bmain".toList, "a.rb".toList]).events)
            ∧ (coAll (Args.filename
                  ⟨some (Stream.fileR "a.rb".toList), none, some "a.rb".toList,
                    some "main".toList, cExt, true, false, false⟩) r = false →
                (main fsAll fsAll coAll dcOk dbOk
                  [mrbcTok, "-c".toList, "-oout.mrb".toList, "-Bmain".toList, "a.rb".toList]).code = 1
                ∧ Event.syntaxOK ∉ (main fsAll fsAll coAll dcOk dbOk
                  [mrbcTok, "-c".toList, "-oout.mrb".toList, "-Bmain".toList, "a.rb".toList]).events))) :=
  ⟨by decide, by decide,
   c7_checkonly_no_output fsAll fsAll coAll dcOk dbOk
     [mrbcTok, "-c".toList, "-oout.mrb".toList, "-Bmain".toList, "a.rb".toList] 0
     ⟨some (Stream.fileR "a.rb".toList), none, some "a.rb".toList,
       some "main".toList, cExt, true, false, false⟩
     [Event.openInput "a.rb".toList] (by decide) (by decide)⟩

/-- Unfolding lemma for `countO`. -/
theorem countO_cons (t : Tok) (rest : List Tok) :
    countO (t :: rest) = (if isOFlag t = true then 1 else 0) + countO rest := by
  by_cases h : isOFlag t = true <;> simp [countO, List.filter_cons, h]
  all_goals omega

/-- Processing a pre-flag switch always continues the scan and never
consults the file-system oracle: it preserves the input-stream field and
at most appends a version banner to the events.  An `-o` switch requires
that no output path was recorded yet (else the scan would abort); every
other pre-flag switch leaves the output-path state untouched. -/
theorem pre_step (t : Tok) (st : ScanState) (hb : preSwitch t = true)
    (ho : isOFlag t = true → st.outfile = none) :
    ∃ st2, (∀ fs, step fs t st = StepResult.cont st2)
      ∧ st2.args.rfp = st.args.rfp
      ∧ (st2.evs = st.evs ∨ st2.evs = st.evs ++ [Event.showVersion])
      ∧ (isOFlag t = false → st2.outfile = st.outfile) := by
  cases t with
  | nil => simp [preSwitch] at hb
  | cons c0 rest =>
    cases rest with
    | nil => simp [preSwitch] at hb
    | cons c val =>
      simp only [preSwitch, Bool.and_eq_true, beq_iff_eq, bne_iff_ne,
        Bool.or_eq_true] at hb
      obtain ⟨⟨h0, h1⟩, h3⟩ := hb
      subst h0
      by_cases hO : c = 'o'
      · subst hO
        have hnone : st.outfile = none := ho (by simp [isOFlag])
        exact ⟨{ st with outfile := some (get_outfilename val []) },
          fun fs => by simp [step, stepDash, hnone], rfl, Or.inl rfl,
          fun hOf => by simp [isOFlag] at hOf⟩
      · have hOf : isOFlag ('-' :: c :: val) = false := by
          simp [isOFlag, hO]
        by_cases hB : c = 'B'
        · subst hB
          have hv2 : val ≠ [] := by
            rcases h3 with h | h
            · exact absurd rfl h
            · exact h
          exact ⟨{ st with args := { st.args with ext := cExt, initname := some val } },
            fun fs => by simp [step, stepDash, hv2], rfl, Or.inl rfl, fun _ => rfl⟩
        · by_cases hcc : c = 'c'
          · subst hcc
            exact ⟨{ st with args := { st.args with checkSyntaxOnly := true } },
              fun fs => by simp [step, stepDash], rfl, Or.inl rfl, fun _ => rfl⟩
          · by_cases hvv : c = 'v'
            · subst hvv
              by_cases hverb : st.args.verbose = true
              · exact ⟨{ st with args := { st.args with verbose := true } },
                  fun fs => by simp [step, stepDash, hverb], rfl, Or.inl rfl,
                  fun _ => rfl⟩
              · exact ⟨{ st with
                    evs := st.evs ++ [Event.showVersion]
                    args := { st.args with verbose := true } },
                  fun fs => by simp [step, stepDash, hverb], rfl, Or.inr rfl,
                  fun _ => rfl⟩
            · by_cases hgg : c = 'g'
              · subst hgg
                exact ⟨{ st with args := { st.args with debugInfo := true } },
                  fun fs => by simp [step, stepDash], rfl, Or.inl rfl, fun _ => rfl⟩
              · exact ⟨st,
                  fun fs => by simp [step, stepDash, h1, hO, hB, hcc, hvv, hgg],
                  rfl, Or.inl rfl, fun _ => rfl⟩

/-- Scanning any number of pre-flag switches — with at most one `-o`
available overall, counting one as already used when an output path is
recorded in the state — followed by `--version` or `--copyright` always
reaches the flag and exits 0, independently of the file-system oracle,
without ever attempting to open an input file. -/
theorem scan_pre_flag (wfs : Tok → Bool) (post : List Tok) (w : Tok)
    (hw : w = "version".toList ∨ w = "copyright".toList) :
    ∀ (pre : List Tok) (st : ScanState),
      (∀ t ∈ pre, preSwitch t = true) →
      countO pre + (if st.outfile = none then 0 else 1) ≤ 1 →
      ∃ args evs,
        (∀ fs, scanLoop fs wfs (pre ++ ('-' :: '-' :: w) :: post) st
          = ParseResult.exited 0 args evs)
        ∧ ∀ p, Event.openInput p ∈ evs → Event.openInput p ∈ st.evs := by
  intro pre
  induction pre with
  | nil =>
    intro st hpre hcount
    rcases hw with h | h <;> subst h
    · refine ⟨st.args, st.evs ++ [Event.showVersion], fun fs => ?_, ?_⟩
      · simp [scanLoop, step, stepDash]
      · intro p hp
        rcases List.mem_append.mp hp with h | h
        · exact h
        · simp at h
    · refine ⟨st.args, st.evs ++ [Event.showCopyright], fun fs => ?_, ?_⟩
      · simp [scanLoop, step, stepDash]
      · intro p hp
        rcases List.mem_append.mp hp with h | h
        · exact h
        · simp at h
  | cons t pre ih =>
    intro st hpre hcount
    have hbt : preSwitch t = true := hpre t (List.mem_cons_self t pre)
    have hoimp : isOFlag t = true → st.outfile = none := by
      intro hOf
      cases hso : st.outfile with
      | none => rfl
      | some x =>
        exfalso
        rw [countO_cons] at hcount
        simp [hOf, hso] at hcount
    obtain ⟨st2, hstep, hrfp, hevs, hout⟩ := pre_step t st hbt hoimp
    have hcount2 : countO pre + (if st2.outfile = none then 0 else 1) ≤ 1 := by
      by_cases hOf : isOFlag t = true
      · have hnone := hoimp hOf
        rw [countO_cons] at hcount
        simp [hOf, hnone] at hcount
        have h0 : countO pre = 0 := by omega
        simp [h0]
        split <;> omega
      · have hOf2 : isOFlag t = false := by simpa using hOf
        have hct : countO (t :: pre) = countO pre := by
          rw [countO_cons]; simp [hOf2]
        rw [hct] at hcount
        rw [hout hOf2]
        exact hcount
    obtain ⟨args, evs, hloop, hmem⟩ :=
      ih st2 (fun u hu => hpre u (List.mem_cons_of_mem t hu)) hcount2
    refine ⟨args, evs, fun fs => ?_, fun p hp => ?_⟩
    · rw [List.cons_append]
      simp only [scanLoop, hstep fs]
      exact hloop fs
    · have h2 := hmem p hp
      rcases hevs with h | h
      · rwa [h] at h2
      · rw [h] at h2
        rcases List.mem_append.mp h2 with h3 | h3
        · exact h3
        · simp at h3

/-- Claim C5 as amended: when `--version` or `--copyright` is reached
before any input token — every earlier token being a single-dash switch
that does not itself terminate or redirect the scan (no long flag, no
`-B` with an empty name, no lone `-`, and at most one `-o` among them) —
the process exits 0 and never attempts to open or read any input file
(the outcome is independent of the file-system oracle).  When an input
token PRECEDES the flag, the scan opens that file first — see the
counterexample. -/
theorem c5_version_before_input_amended (fs wfs : Tok → Bool)
    (co : Option Tok → Stream → Bool) (dc : Tok → Option Stream → DumpResult)
    (db : Option Stream → DumpResult) (name : Tok) (pre post : List Tok) (w : Tok)
    (hpre : ∀ t ∈ pre, preSwitch t = true)
    (hone : countO pre ≤ 1)
    (hw : w = "version".toList ∨ w = "copyright".toList) :
    (main fs wfs co dc db (name :: (pre ++ ('-' :: '-' :: w) :: post))).code = 0
    ∧ (∀ p, Event.openInput p
        ∉ (main fs wfs co dc db (name :: (pre ++ ('-' :: '-' :: w) :: post))).events)
    ∧ (∀ fs2, main fs2 wfs co dc db (name :: (pre ++ ('-' :: '-' :: w) :: post))
        = main fs wfs co dc db (name :: (pre ++ ('-' :: '-' :: w) :: post))) := by
  obtain ⟨args, evs, hloop, hmem⟩ :=
    scan_pre_flag wfs post w hw pre initState hpre (by simpa [initState] using hone)
  have hm : ∀ fs3, main fs3 wfs co dc db (name :: (pre ++ ('-' :: '-' :: w) :: post))
      = ⟨0, evs, args.rfp.isSome, args.wfp.isSome, true⟩ := by
    intro fs3
    have hparse : parse_args fs3 wfs (name :: (pre ++ ('-' :: '-' :: w) :: post))
        = ParseResult.exited 0 args evs := hloop fs3
    simp [main, hparse]
  refine ⟨by rw [hm fs], ?_, fun fs2 => by rw [hm fs2, hm fs]⟩
  intro p hp
  rw [hm fs] at hp
  have := hmem p hp
  simp [initState] at this

/-- Witness for the amended C5: `mrbc -ofoo -v --version a.rb` exits 0
and never opens `a.rb` (a single `-o` before the flag is allowed). -/
theorem c5_version_before_input_amended_wit :
    (∀ t ∈ [('-' :: 'o' :: "foo".toList), ('-' :: 'v' :: ([] : Tok))],
        preSwitch t = true)
    ∧ countO [('-' :: 'o' :: "foo".toList), ('-' :: 'v' :: ([] : Tok))] ≤ 1
    ∧ ("version".toList = "version".toList ∨ "version".toList = "copyright".toList)
    ∧ ((main fsAll fsAll coAll dcOk dbOk
          (mrbcTok :: ([('-' :: 'o' :: "foo".toList), ('-' :: 'v' :: [])]
            ++ ('-' :: '-' :: "version".toList) :: ["a.rb".toList]))).code = 0
      ∧ (∀ p, Event.openInput p ∉ (main fsAll fsAll coAll dcOk dbOk
          (mrbcTok :: ([('-' :: 'o' :: "foo".toList), ('-' :: 'v' :: [])]
            ++ ('-' :: '-' :: "version".toList) :: ["a.rb".toList]))).events)
      ∧ (∀ fs2, main fs2 fsAll coAll dcOk dbOk
            (mrbcTok :: ([('-' :: 'o' :: "foo".toList), ('-' :: 'v' :: [])]
              ++ ('-' :: '-' :: "version".toList) :: ["a.rb".toList]))
          = main fsAll fsAll coAll dcOk dbOk
            (mrbcTok :: ([('-' :: 'o' :: "foo".toList), ('-' :: 'v' :: [])]
              ++ ('-' :: '-' :: "version".toList) :: ["a.rb".toList])))) :=
  ⟨by decide, by decide, Or.inl rfl,
   c5_version_before_input_amended fsAll fsAll coAll dcOk dbOk mrbcTok
     [('-' :: 'o' :: "foo".toList), ('-' :: 'v' :: [])] ["a.rb".toList]
     "version".toList (by decide) (by decide) (Or.inl rfl)⟩

/-- With a real (two-plus-character) extension the derived output name is
never the stdout sentinel `-`. -/
theorem get_outfilename_ne_dash (p ext : Tok) (h : 2 ≤ ext.length) :
    get_outfilename p ext ≠ ['-'] := by
  intro hEq
  unfold get_outfilename at hEq
  split at hEq
  · rename_i hext
    rw [hext] at h
    simp at h
  · split at hEq
    · have := congrArg List.length hEq
      simp at this
      omega
    · have := congrArg List.length hEq
      simp at this
      omega

/-- Claim C4 as amended: for an input path bound as the input file (a
token not starting with `-`), with no `-o` and no `-c`, the derived output
path replaces the extension located at the last dot ANYWHERE in the path —
not just in the filename part — or appends the extension when the path has
no dot at all; the extension is `.mrb` for the binary format and `.c` when
`-B<symbol>` was given. -/
theorem c4_derive_output_amended (fs wfs : Tok → Bool) (name : Tok) (c : Char) (cs : Tok)
    (hc : c ≠ '-')
    (hfs : fs (c :: cs) = true)
    (hw1 : wfs (get_outfilename (c :: cs) riteBinExt) = true)
    (hw2 : wfs (get_outfilename (c :: cs) cExt) = true) :
    (parse_args fs wfs [name, c :: cs]).argsOf.wfp
        = some (Stream.fileW (get_outfilename (c :: cs) riteBinExt))
    ∧ (parse_args fs wfs [name, '-' :: 'B' :: "main".toList, c :: cs]).argsOf.wfp
        = some (Stream.fileW (get_outfilename (c :: cs) cExt))
    ∧ (lastIdxOf '.' (c :: cs) = none →
        get_outfilename (c :: cs) riteBinExt = (c :: cs) ++ riteBinExt)
    ∧ (∀ i, lastIdxOf '.' (c :: cs) = some i →
        get_outfilename (c :: cs) riteBinExt = (c :: cs).take i ++ riteBinExt) := by
  have hne1 : get_outfilename (c :: cs) riteBinExt ≠ ['-'] :=
    get_outfilename_ne_dash _ _ (by decide)
  have hne2 : get_outfilename (c :: cs) cExt ≠ ['-'] :=
    get_outfilename_ne_dash _ _ (by decide)
  have hcons : (c :: cs) ≠ (['-'] : Tok) := by
    intro hEq
    simp at hEq
    exact hc hEq.1
  refine ⟨?_, ?_, ?_, ?_⟩
  · simp [parse_args, scanLoop, step, hc, stepFile, initState, args_zero, hfs,
      postScan, resolveOut, hcons, hne1, hw1]
  · simp [parse_args, scanLoop, step, stepDash, hc, stepFile, initState, args_zero,
      hfs, postScan, resolveOut, hcons, hne2, hw2]
  · intro h
    simp [get_outfilename, h]
  · intro i h
    have hrb : riteBinExt ≠ [] := by decide
    simp [get_outfilename, h, hrb]

/-- Witness for the amended C4 at input `foo.rb`, together with the
concrete instances named by the claim: `foo.rb` derives `foo.mrb`, with
`-Bmain` it derives `foo.c`, and extensionless `foo` derives `foo.mrb`. -/
theorem c4_derive_output_amended_wit :
    get_outfilename "foo.rb".toList riteBinExt = "foo.mrb".toList
    ∧ get_outfilename "foo.rb".toList cExt = "foo.c".toList
    ∧ get_outfilename "foo".toList riteBinExt = "foo.mrb".toList
    ∧ ((parse_args fsAll fsAll [mrbcTok, 'f' :: "oo.rb".toList]).argsOf.wfp
        = some (Stream.fileW (get_outfilename ('f' :: "oo.rb".toList) riteBinExt))
      ∧ (parse_args fsAll fsAll
            [mrbcTok, '-' :: 'B' :: "main".toList, 'f' :: "oo.rb".toList]).argsOf.wfp
        = some (Stream.fileW (get_outfilename ('f' :: "oo.rb".toList) cExt))
      ∧ (lastIdxOf '.' ('f' :: "oo.rb".toList) = none →
          get_outfilename ('f' :: "oo.rb".toList) riteBinExt
            = ('f' :: "oo.rb".toList) ++ riteBinExt)
      ∧ (∀ i, lastIdxOf '.' ('f' :: "oo.rb".toList) = some i →
          get_outfilename ('f' :: "oo.rb".toList) riteBinExt
            = ('f' :: "oo.rb".toList).take i ++ riteBinExt)) :=
  ⟨by decide, by decide, by decide,
   c4_derive_output_amended fsAll fsAll mrbcTok 'f' "oo.rb".toList
     (by decide) (by decide) (by decide) (by decide)⟩

end Mrbc
